import Mathlib

/-!
Verification of the zeroworkflow/zw streaming-to-terminal pipeline.

Shallow embedding of the Go sources:
  * src/pkg/stream/processor.go   (ProcessStream, cleanResponse, limitNewlines)
  * src/internal/renderer/markdown.go
      (RenderMarkdown, processCodeBlocks, formatCodeBlock, stripAnsiCodes,
       processMarkdownElements)
  * src/cmd/ask.go                (streamingPrinter.render)

Strings are embedded as `List Char` (Go iterates runes in the relevant
loops; where the source uses byte operations — `len`, slicing — the
embedding measures UTF-8 byte sizes of the runes explicitly).
-/

abbrev Str := List Char

/-- Convert a Lean string literal to the `List Char` representation. -/
def str (s : String) : Str := s.data

/-- `startsWith pat s` : `pat` is a prefix of `s` (by characters). -/
def startsWith : Str → Str → Bool
  | [], _ => true
  | _ :: _, [] => false
  | p :: ps, c :: cs => p = c && startsWith ps cs

/-- `hasSub pat s` : `pat` occurs as a contiguous substring of `s`. -/
def hasSub (pat : Str) : Str → Bool
  | [] => startsWith pat []
  | c :: rest => startsWith pat (c :: rest) || hasSub pat rest

/-- `strings.Split(s, "\n")` from the Go standard library. -/
def splitNL : Str → List Str
  | [] => [[]]
  | c :: rest =>
    if c = '\n' then [] :: splitNL rest
    else
      match splitNL rest with
      | s :: ss => (c :: s) :: ss
      | [] => [[c]]

/-- `strings.Join(lines, "\n")` from the Go standard library. -/
def joinNL : List Str → Str
  | [] => []
  | [l] => l
  | l :: ls => l ++ '\n' :: joinNL ls

/-- `strings.Repeat(" ", n)`. -/
def spaces (n : Nat) : Str := List.replicate n ' '

/-- `strings.Repeat("─", n)` (box-drawing horizontal bar). -/
def dashes (n : Nat) : Str := List.replicate n '─'

/-- Go `len(s)` on a string: the UTF-8 byte length of the runes. -/
def utf8Len (l : Str) : Nat := (l.map Char.utf8Size).sum

/-- Go byte-slice `s[:k]` modelled at rune granularity: keeps the runes
that fit entirely in the first `k` bytes.  (Go may cut a rune's bytes in
half; the embedding keeps whole runes, which agrees with Go whenever the
cut lands on a rune boundary — in particular on all ASCII text.) -/
def takeBytes : Str → Nat → Str
  | [], _ => []
  | c :: rest, k => if c.utf8Size ≤ k then c :: takeBytes rest (k - c.utf8Size) else []

/-- The whitespace predicate of Go's `unicode.IsSpace`, used by
`strings.TrimSpace` (Latin-1 space characters plus the Unicode space
ranges relevant to this development). -/
def isGoSpace (c : Char) : Bool :=
  c = ' ' || c = '\t' || c = '\n' || c = '\x0b' || c = '\x0c' || c = '\r' ||
  c = '\u0085' || c = '\u00a0' ||
  c = '\u1680' || ('\u2000' ≤ c && c ≤ '\u200a') ||
  c = '\u2028' || c = '\u2029' || c = '\u202f' || c = '\u205f' || c = '\u3000'

/-- Right half of `strings.TrimSpace`: drop trailing whitespace. -/
def trimRight (l : Str) : Str := (l.reverse.dropWhile isGoSpace).reverse

/-- `strings.TrimSpace` from the Go standard library. -/
def trimSpace (l : Str) : Str := trimRight (l.dropWhile isGoSpace)

/-- `strings.Trim(s, cutset)`: drop characters of `cutset` from both ends. -/
def trimCutset (cutset : Str) (l : Str) : Str :=
  ((l.dropWhile (cutset.contains ·)).reverse.dropWhile (cutset.contains ·)).reverse

/-! ## Stream processor (src/pkg/stream/processor.go) -/

/-- The fence counter of `cleanResponse`'s rune loop: the number of
positions at which three consecutive backticks begin (overlapping
occurrences are all counted, exactly as the loop at
processor.go:134-137 does). -/
def tripleTickCount : Str → Nat
  | [] => 0
  | c :: rest =>
    (if c = '`' ∧ rest.take 2 = ['`', '`'] then 1 else 0) + tripleTickCount rest

/-- `strings.Count(s, "```")`: NON-overlapping occurrences of three
backticks — the counting used by the sibling implementations in this
repository (internal/ai/service.go:710) and the natural reading of
"number of fence markers".  Kept separate from `tripleTickCount`, the
counter processor.go actually uses. -/
def fenceMarkerCount : Str → Nat
  | '`' :: '`' :: '`' :: rest => 1 + fenceMarkerCount rest
  | _ :: rest => fenceMarkerCount rest
  | [] => 0

/-- The single normalization pass of `cleanResponse`
(processor.go:127-142): iterate over the runes, drop a `\r` that is
followed by `\n`, turn a lone `\r` into `\n`, copy everything else, and
count the positions where three consecutive backticks begin.  Returns
(normalized text, fence count). -/
def cleanPass : Str → Str × Nat
  | [] => ([], 0)
  | c :: rest =>
    let p := cleanPass rest
    if c = '\r' then
      if rest.take 1 = ['\n'] then p else ('\n' :: p.1, p.2)
    else if c = '`' ∧ rest.take 2 = ['`', '`'] then ('`' :: p.1, p.2 + 1)
    else (c :: p.1, p.2)

/-- Loop body of `limitNewlines` (processor.go:160-171): copy characters,
keeping at most the first 3 newlines of every consecutive run.
`k` is the running count of consecutive newlines seen so far. -/
def limitNewlinesAux : Str → Nat → Str
  | [], _ => []
  | c :: rest, k =>
    if c = '\n' then
      if k + 1 ≤ 3 then c :: limitNewlinesAux rest (k + 1)
      else limitNewlinesAux rest (k + 1)
    else c :: limitNewlinesAux rest 0

/-- `limitNewlines` (processor.go:156-174). -/
def limitNewlines (l : Str) : Str := limitNewlinesAux l 0

/-- The text `cleanResponse` has built just before `limitNewlines` runs:
normalized, trimmed, and with one closing fence appended when the rune
loop's fence count was odd (processor.go:144-149). -/
def balancedOf (text : Str) : Str :=
  if text = [] then []
  else
    let p := cleanPass text
    let cleaned := trimSpace p.1
    if p.2 % 2 = 1 then cleaned ++ str "\n```" else cleaned

/-- `cleanResponse` (processor.go:114-153). -/
def cleanResponse (text : Str) : Str :=
  if text = [] then [] else limitNewlines (balancedOf text)

/-! ## JSON decoding of stream chunks

`ProcessStream` decodes each payload with `encoding/json` into the
`StreamChunk` struct (processor.go:19-27, 88-92).  The library's
behaviour is modelled by a small JSON reader: unknown fields are
ignored, absent or `null` fields keep their zero values, a field whose
JSON value has the wrong shape makes the whole decode fail (the line is
then skipped), and a payload that is not valid JSON fails as well. -/

inductive JVal where
  | null
  | bool (b : Bool)
  | num
  | string (s : Str)
  | arr (elems : List JVal)
  | obj (fields : List (Str × JVal))

/-- JSON insignificant whitespace. -/
def skipWs (l : Str) : Str :=
  l.dropWhile (fun c => c = ' ' || c = '\t' || c = '\n' || c = '\r')

def hexDigit (c : Char) : Option Nat :=
  if '0' ≤ c ∧ c ≤ '9' then some (c.toNat - '0'.toNat)
  else if 'a' ≤ c ∧ c ≤ 'f' then some (c.toNat - 'a'.toNat + 10)
  else if 'A' ≤ c ∧ c ≤ 'F' then some (c.toNat - 'A'.toNat + 10)
  else none

/-- Decode a `\uXXXX` escape.  Lone surrogates are replaced by U+FFFD as
`encoding/json` does (surrogate pairs are not recombined by this model;
no theorem below depends on them). -/
def uEscape (a b c d : Char) : Option Char := do
  let n := (← hexDigit a) * 4096 + (← hexDigit b) * 256 + (← hexDigit c) * 16 + (← hexDigit d)
  if n.isValidChar then pure (Char.ofNat n) else pure '�'

/-- Body of a JSON string literal (after the opening quote). -/
def parseJStr : Nat → Str → Option (Str × Str)
  | 0, _ => none
  | _ + 1, [] => none
  | fuel + 1, c :: rest =>
    if c = '"' then some ([], rest)
    else if c = '\\' then
      match rest with
      | e :: rest2 =>
        let cont (ch : Char) (after : Str) : Option (Str × Str) := do
          let (s, r) ← parseJStr fuel after
          pure (ch :: s, r)
        if e = '"' then cont '"' rest2
        else if e = '\\' then cont '\\' rest2
        else if e = '/' then cont '/' rest2
        else if e = 'b' then cont '\x08' rest2
        else if e = 'f' then cont '\x0c' rest2
        else if e = 'n' then cont '\n' rest2
        else if e = 'r' then cont '\r' rest2
        else if e = 't' then cont '\t' rest2
        else if e = 'u' then
          match rest2 with
          | h1 :: h2 :: h3 :: h4 :: rest3 =>
            match uEscape h1 h2 h3 h4 with
            | some ch => cont ch rest3
            | none => none
          | _ => none
        else none
      | [] => none
    else if c.toNat < 32 then none
    else do
      let (s, r) ← parseJStr fuel rest
      pure (c :: s, r)

/-- JSON number syntax; only validity matters for the decoder. -/
def parseJNum (l : Str) : Option Str :=
  let l1 := match l with
    | '-' :: r => r
    | _ => l
  let intPart := l1.takeWhile Char.isDigit
  let l2 := l1.drop intPart.length
  if intPart = [] then none
  else
    let afterFrac : Option Str :=
      match l2 with
      | '.' :: r =>
        let fr := r.takeWhile Char.isDigit
        if fr = [] then none else some (r.drop fr.length)
      | _ => some l2
    match afterFrac with
    | none => none
    | some l3 =>
      match l3 with
      | e :: r =>
        if e = 'e' ∨ e = 'E' then
          let r1 := match r with
            | s :: r2 => if s = '+' ∨ s = '-' then r2 else r
            | [] => r
          let ex := r1.takeWhile Char.isDigit
          if ex = [] then none else some (r1.drop ex.length)
        else some l3
      | [] => some l3

mutual

/-- One JSON value; `fuel` strictly decreases on every nested call. -/
def parseJVal : Nat → Str → Option (JVal × Str)
  | 0, _ => none
  | fuel + 1, l =>
    match skipWs l with
    | 'n' :: 'u' :: 'l' :: 'l' :: rest => some (.null, rest)
    | 't' :: 'r' :: 'u' :: 'e' :: rest => some (.bool true, rest)
    | 'f' :: 'a' :: 'l' :: 's' :: 'e' :: rest => some (.bool false, rest)
    | '"' :: rest => do
      let (s, r) ← parseJStr fuel rest
      pure (.string s, r)
    | '\x7b' :: rest =>
      (match skipWs rest with
       | '\x7d' :: r => some (.obj [], r)
       | r => do
         let (fs, r2) ← parseJFields fuel r
         pure (.obj fs, r2))
    | '[' :: rest =>
      (match skipWs rest with
       | ']' :: r => some (.arr [], r)
       | r => do
         let (es, r2) ← parseJElems fuel r
         pure (.arr es, r2))
    | l' => do
      let r ← parseJNum l'
      pure (.num, r)

/-- Fields of an object, positioned at the first key. -/
def parseJFields : Nat → Str → Option (List (Str × JVal) × Str)
  | 0, _ => none
  | fuel + 1, l => do
    match skipWs l with
    | '"' :: rest =>
      let (key, r1) ← parseJStr fuel rest
      match skipWs r1 with
      | ':' :: r2 => do
        let (v, r3) ← parseJVal fuel r2
        match skipWs r3 with
        | ',' :: r4 => do
          let (fs, r5) ← parseJFields fuel r4
          pure ((key, v) :: fs, r5)
        | '\x7d' :: r4 => pure ([(key, v)], r4)
        | _ => none
      | _ => none
    | _ => none

/-- Elements of an array, positioned at the first element. -/
def parseJElems : Nat → Str → Option (List JVal × Str)
  | 0, _ => none
  | fuel + 1, l => do
    let (v, r1) ← parseJVal fuel l
    match skipWs r1 with
    | ',' :: r2 => do
      let (es, r3) ← parseJElems fuel r2
      pure (v :: es, r3)
    | ']' :: r2 => pure ([v], r2)
    | _ => none

end

/-- Parse a whole payload as one JSON document (trailing whitespace
allowed, anything else is an error — as `json.Unmarshal` behaves). -/
def parseJson (l : Str) : Option JVal := do
  let (v, rest) ← parseJVal (2 * l.length + 2) l
  if skipWs rest = [] then pure v else none

/-- `StreamChunk` (processor.go:19-27); the `usage interface{}` field
accepts any JSON value and is not represented. -/
structure StreamChunk where
  type : Str
  deltaContent : Str
  phase : Str
  done : Bool
deriving Repr, DecidableEq

def StreamChunk.zero : StreamChunk := ⟨[], [], [], false⟩

/-- ASCII case folding for `encoding/json`'s case-insensitive field
match (sufficient for the field names of `StreamChunk`). -/
def keyEqCI (a b : Str) : Bool :=
  a.map Char.toLower == b.map Char.toLower

/-- Key lookup as `encoding/json` assigns object keys to one struct
field: keys are processed in order and later assignments win, matching
case-insensitively. -/
def lookupField (fields : List (Str × JVal)) (key : Str) : Option JVal :=
  ((fields.filter (fun kv => keyEqCI kv.1 key)).getLast?).map (·.2)

/-- Decode a JSON value into a `string` struct field: absent or `null`
keeps the zero value, a string is taken, anything else is a decode
error. -/
def asJStr : Option JVal → Option Str
  | none => some []
  | some .null => some []
  | some (.string s) => some s
  | some _ => none

/-- Decode a JSON value into a `bool` struct field. -/
def asJBool : Option JVal → Option Bool
  | none => some false
  | some .null => some false
  | some (.bool b) => some b
  | some _ => none

/-- Decode a JSON value into a nested struct field. -/
def asJObj : Option JVal → Option (List (Str × JVal))
  | none => some []
  | some .null => some []
  | some (.obj fs) => some fs
  | some _ => none

/-- `json.Unmarshal(data, &chunk)` into a fresh `StreamChunk`:
`none` models a decode error (the caller skips the line). -/
def bindChunk : JVal → Option StreamChunk
  | .null => some .zero
  | .obj fields => do
    let ty ← asJStr (lookupField fields (str "type"))
    let dataFields ← asJObj (lookupField fields (str "data"))
    let dc ← asJStr (lookupField dataFields (str "delta_content"))
    let ph ← asJStr (lookupField dataFields (str "phase"))
    let dn ← asJBool (lookupField dataFields (str "done"))
    pure ⟨ty, dc, ph, dn⟩
  | _ => none

/-- Full decode of one payload. -/
def parseChunk (payload : Str) : Option StreamChunk :=
  (parseJson payload).bind bindChunk

/-! ## ProcessStream (processor.go:48-111)

The byte source is modelled as the list of lines `bufio.Scanner`
delivers, followed by `none` (clean end of stream) or `some msg`
(`scanner.Err()` reports a read failure after the delivered lines).
The `types.StreamCallback` invocations are recorded in order. -/

def dataPrefix : Str := str "data: "

def doneSentinel : Str := str "[DONE]"

/-- The scan loop of `ProcessStream`: `acc` is the accumulated response
builder, `calls` the callback invocations so far. -/
def processStreamAux (acc : Str) (calls : List Str) :
    List Str → Option Str → List Str × Except Str Str
  | [], none => (calls, .ok (cleanResponse acc))
  | [], some msg => (calls, .error (str "failed to read stream: " ++ msg))
  | line :: rest, e =>
    if line.length < 6 ∨ line.take 6 ≠ dataPrefix then
      processStreamAux acc calls rest e
    else
      let data := line.drop 6
      if data = doneSentinel then (calls, .ok (cleanResponse acc))
      else
        match parseChunk data with
        | none => processStreamAux acc calls rest e
        | some chunk =>
          let acc' := if chunk.type = str "chat:completion" ∧ chunk.deltaContent ≠ []
            then acc ++ chunk.deltaContent else acc
          let calls' := if chunk.type = str "chat:completion" ∧ chunk.deltaContent ≠ []
            then calls ++ [chunk.deltaContent] else calls
          if chunk.done then (calls', .ok (cleanResponse acc'))
          else processStreamAux acc' calls' rest e

/-- `ProcessStream`: the callback trace and the returned
(response, error) pair. -/
def processStream (lines : List Str) (readErr : Option Str) :
    List Str × Except Str Str :=
  processStreamAux [] [] lines readErr

/-- `true` when the scan loop runs through all delivered lines without
returning early (no `[DONE]` payload and no chunk with `done: true`
is reached), so a trailing read failure is observed. -/
def noEarlyStop : List Str → Bool
  | [] => true
  | line :: rest =>
    if line.length < 6 ∨ line.take 6 ≠ dataPrefix then noEarlyStop rest
    else
      let data := line.drop 6
      if data = doneSentinel then false
      else
        match parseChunk data with
        | none => noEarlyStop rest
        | some chunk => if chunk.done then false else noEarlyStop rest

/-- The spec's `StreamEvent` vocabulary. -/
inductive StreamEvent where
  | contentChunk (delta : Str)
  | done
  | error (detail : Str)
deriving DecidableEq

/-- The event sequence of a decode run: one `ContentChunk` per callback
invocation, closed by `Done` or `Error`. -/
def eventsOf (run : List Str × Except Str Str) : List StreamEvent :=
  run.1.map .contentChunk ++
    [match run.2 with
     | .ok _ => .done
     | .error e => .error e]

deriving instance DecidableEq for Except

/-! ## Markdown renderer (src/internal/renderer/markdown.go)

The syntax highlighter (`highlightCode`, markdown.go:242-269) is the
third-party chroma library; it is modelled as a function parameter
`hl : Str → Str → Str` (body, language tag ↦ highlighted body).  The
fatih/color `Sprint` wrappers are modelled in their colour-enabled form:
`color.New(attrs...).Sprint(s)` emits `ESC [ a₁;…;aₙ m`, `s`,
`ESC [ 0 m`. -/

def ansiReset : Str := str "\x1b[0m"

/-- `color.New(color.FgCyan, color.Bold).Sprint` (markdown.go:296). -/
def sprintCyanBold (s : Str) : Str := str "\x1b[36;1m" ++ s ++ ansiReset

/-- `color.New(color.Bold).Sprint`. -/
def sprintBold (s : Str) : Str := str "\x1b[1m" ++ s ++ ansiReset

/-- `color.New(color.Italic).Sprint`. -/
def sprintItalic (s : Str) : Str := str "\x1b[3m" ++ s ++ ansiReset

/-- `color.New(color.BgHiBlack, color.FgWhite).Sprint`. -/
def sprintInlineCode (s : Str) : Str := str "\x1b[100;37m" ++ s ++ ansiReset

/-- The per-level header colours (markdown.go:362-377):
red+bold, yellow+bold, green+bold, cyan+bold. -/
def sprintHeader (level : Nat) (s : Str) : Str :=
  (if level = 1 then str "\x1b[31;1m"
   else if level = 2 then str "\x1b[33;1m"
   else if level = 3 then str "\x1b[32;1m"
   else str "\x1b[36;1m") ++ s ++ ansiReset

def isAnsiBodyChar (c : Char) : Bool := c.isDigit || c = ';'

/-- One step of `regexp.MustCompile("\\x1b\\[[0-9;]*m").ReplaceAllString(text, "")`
(markdown.go:330-334): at each position try to match
`ESC [ [0-9;]* m`; on a match drop it and continue after it, otherwise
keep the character. -/
def stripAnsiAux : Nat → Str → Str
  | 0, s => s
  | _ + 1, [] => []
  | fuel + 1, c :: rest =>
    if c = '\x1b' then
      match rest with
      | '[' :: r =>
        let body := r.takeWhile isAnsiBodyChar
        match r.drop body.length with
        | 'm' :: after => stripAnsiAux fuel after
        | _ => c :: stripAnsiAux fuel rest
      | _ => c :: stripAnsiAux fuel rest
    else c :: stripAnsiAux fuel rest

/-- `stripAnsiCodes` (markdown.go:330-334). -/
def stripAnsiCodes (text : Str) : Str := stripAnsiAux text.length text

/-- The for-loop body of `formatCodeBlock` (markdown.go:311-320): byte
length against the interior width, truncation with a `...` marker, and
right-padding with spaces. -/
def renderCodeLine (contentWidth : Nat) (line : Str) : Str :=
  let line' := if utf8Len line > contentWidth
    then takeBytes line (contentWidth - 3) ++ str "..."
    else line
  sprintCyanBold (str "│ ") ++ line' ++ spaces (contentWidth - utf8Len line') ++
    sprintCyanBold (str " │") ++ [ '\n' ]

/-- `formatCodeBlock` (markdown.go:272-327). -/
def formatCodeBlock (code lang : Str) : Str :=
  let cleanCode := stripAnsiCodes code
  let lines := splitNL cleanCode
  let maxLen := lines.foldl (fun m line => if utf8Len line > m then utf8Len line else m) 0
  let bw0 := maxLen + 4
  let bw1 := if bw0 < 44 then 44 else bw0
  let borderWidth := if bw1 > 84 then 84 else bw1
  let topBorder :=
    if lang ≠ [] then
      let langLabel := ' ' :: (lang ++ [' '])
      '┌' :: '─' :: (langLabel ++ dashes (borderWidth - utf8Len langLabel - 3) ++ ['┐'])
    else
      '┌' :: (dashes (borderWidth - 2) ++ ['┐'])
  let contentWidth := borderWidth - 4
  let bottomBorder := '└' :: (dashes (borderWidth - 2) ++ ['┘'])
  (sprintCyanBold topBorder ++ [ '\n' ]) ++
    (lines.map (renderCodeLine contentWidth)).flatten ++
    (sprintCyanBold bottomBorder ++ [ '\n' ])

def isLangChar (c : Char) : Bool :=
  c.isAlpha || c.isDigit || c = '_' || c = '+' || c = '-'

/-- Earliest occurrence of the closing `\n```` `` ` of the lazy body
group: returns (body before it, text after the close). -/
def findCloseFence : Str → Option (Str × Str)
  | '\n' :: '`' :: '`' :: '`' :: rest => some ([], rest)
  | c :: rest =>
    match findCloseFence rest with
    | some (body, after) => some (c :: body, after)
    | none => none
  | [] => none

/-- Match of ``` "```([a-zA-Z0-9_+-]*)\n([\s\S]*?)\n```" ``` anchored at
the current position: three backticks, the (greedy, newline-free)
language tag, a newline, then the shortest body up to the next
`\n```` ``.  Returns (language tag, body, text after the match). -/
def matchFenceAt : Str → Option (Str × Str × Str)
  | '`' :: '`' :: '`' :: r =>
    let lang := r.takeWhile isLangChar
    match r.drop lang.length with
    | '\n' :: r2 =>
      match findCloseFence r2 with
      | some (body, after) => some (lang, body, after)
      | none => none
    | _ => none
  | _ => none

/-- The replacement callback of `processCodeBlocks` (markdown.go:221-238);
re-matching the regex inside the matched text yields the same language
tag and body, so they are used directly. -/
def fenceReplacement (hl : Str → Str → Str) (lang body : Str) : Str :=
  let lang' := trimSpace lang
  if lang' = [] then formatCodeBlock body []
  else formatCodeBlock (hl body lang') lang'

/-- Leftmost-first scan of `ReplaceAllStringFunc` for the code-block
regex: try a match at every position, replace and continue after each
match.  `fuel` bounds the scan by the text length (every step consumes
at least one character). -/
def processCodeBlocksAux (hl : Str → Str → Str) : Nat → Str → Str
  | 0, s => s
  | _ + 1, [] => []
  | fuel + 1, c :: rest =>
    match matchFenceAt (c :: rest) with
    | some (lang, body, after) => fenceReplacement hl lang body ++ processCodeBlocksAux hl fuel after
    | none => c :: processCodeBlocksAux hl fuel rest

/-- `processCodeBlocks` (markdown.go:217-239). -/
def processCodeBlocks (hl : Str → Str → Str) (content : Str) : Str :=
  processCodeBlocksAux hl content.length content

/-- Generic `ReplaceAllStringFunc` scan for the inline-element regexes:
`matchAt` yields (matched text, rest after the match) when the pattern
matches at the current position. -/
def replaceScan (matchAt : Str → Option (Str × Str)) (repl : Str → Str) :
    Nat → Str → Str
  | 0, s => s
  | _ + 1, [] => []
  | fuel + 1, c :: rest =>
    match matchAt (c :: rest) with
    | some (m, after) => repl m ++ replaceScan matchAt repl fuel after
    | none => c :: replaceScan matchAt repl fuel rest

/-- Anchored match of `\*\*([^*]+)\*\*|__([^_]+)__`. -/
def matchBoldAt : Str → Option (Str × Str)
  | '*' :: '*' :: r =>
    let t := r.takeWhile (· ≠ '*')
    if t = [] then none
    else match r.drop t.length with
      | '*' :: '*' :: after => some ('*' :: '*' :: (t ++ ['*', '*']), after)
      | _ => none
  | '_' :: '_' :: r =>
    let t := r.takeWhile (· ≠ '_')
    if t = [] then none
    else match r.drop t.length with
      | '_' :: '_' :: after => some ('_' :: '_' :: (t ++ ['_', '_']), after)
      | _ => none
  | _ => none

/-- Anchored match of `\*([^*]+)\*|_([^_]+)_`. -/
def matchItalicAt : Str → Option (Str × Str)
  | '*' :: r =>
    let t := r.takeWhile (· ≠ '*')
    if t = [] then none
    else match r.drop t.length with
      | '*' :: after => some ('*' :: (t ++ ['*']), after)
      | _ => none
  | '_' :: r =>
    let t := r.takeWhile (· ≠ '_')
    if t = [] then none
    else match r.drop t.length with
      | '_' :: after => some ('_' :: (t ++ ['_']), after)
      | _ => none
  | _ => none

/-- Anchored match of `` `([^`]+)` ``. -/
def matchInlineCodeAt : Str → Option (Str × Str)
  | '`' :: r =>
    let t := r.takeWhile (· ≠ '`')
    if t = [] then none
    else match r.drop t.length with
      | '`' :: after => some ('`' :: (t ++ ['`']), after)
      | _ => none
  | _ => none

/-- The `\s` class of Go regexp: `[\t\n\f\r ]`. -/
def isRegexSpace (c : Char) : Bool :=
  c = '\t' || c = '\n' || c = '\x0c' || c = '\r' || c = ' '

/-- `FindStringSubmatch` of `^(#{1,6})\s+(.+)$` on one line: the hashes
are greedy, then at least one space; `(.+)` needs at least one
character, so when only whitespace follows the hashes the `\s+` group
backtracks one character (which `.` accepts) — a match then needs at
least two whitespace characters.  Returns (level, header text). -/
def headerMatch (line : Str) : Option (Nat × Str) :=
  let hs := line.takeWhile (· = '#')
  if 1 ≤ hs.length ∧ hs.length ≤ 6 then
    let rest := line.drop hs.length
    let ws := rest.takeWhile isRegexSpace
    let text := rest.drop ws.length
    if ws = [] then none
    else if text ≠ [] then some (hs.length, text)
    else if 2 ≤ ws.length then
      match ws.getLast? with
      | some ch => some (hs.length, [ch])
      | none => none
    else none
  else none

/-- The header pass (markdown.go:360-382): split into lines, replace a
matching line wholesale by the coloured header text, join back. -/
def processHeaders (content : Str) : Str :=
  joinNL ((splitNL content).map (fun line =>
    match headerMatch line with
    | some (level, text) => sprintHeader level text
    | none => line))

/-- `processMarkdownElements` (markdown.go:337-385): bold, italic,
inline code, then headers. -/
def processMarkdownElements (content : Str) : Str :=
  let c1 := replaceScan matchBoldAt
    (fun m => sprintBold (trimCutset (str "*_") m)) content.length content
  let c2 := replaceScan matchItalicAt
    (fun m => sprintItalic (trimCutset (str "*_") m)) c1.length c1
  let c3 := replaceScan matchInlineCodeAt
    (fun m => sprintInlineCode (' ' :: (trimCutset (str "`") m ++ [' ']))) c2.length c2
  processHeaders c3

/-- `RenderMarkdown` (markdown.go:206-214). -/
def RenderMarkdown (hl : Str → Str → Str) (content : Str) : Str :=
  processMarkdownElements (processCodeBlocks hl content)

/-- The highlighter instance in which chroma returns the code unchanged
(the source's own fallback when formatting fails, markdown.go:252-268). -/
def plainHighlight : Str → Str → Str := fun code _ => code

/-! ## streamingPrinter (src/cmd/ask.go:74-112) -/

structure PrinterState where
  lastLines : Nat
deriving DecidableEq

/-- What one `render()` call writes: the cursor-up count of the erase
sequence `ESC [ n A \r ESC [ J` (absent on the first paint), and the
printed frame. -/
structure RenderOutput where
  cursorUp : Option Nat
  printed : Str
deriving DecidableEq

/-- `strings.Count(content, "\n")`. -/
def countNL (l : Str) : Nat := (l.filter (· = '\n')).length

/-- `streamingPrinter.render` (ask.go:101-112): render the whole buffer,
erase the previous frame's `lastLines` lines (if any), print, and store
the new frame's newline count. -/
def printerRender (hl : Str → Str → Str) (st : PrinterState) (buffer : Str) :
    RenderOutput × PrinterState :=
  let content := RenderMarkdown hl buffer
  let lines := countNL content
  (⟨if st.lastLines > 0 then some st.lastLines else none, content⟩, ⟨lines⟩)

/-- Length of the leading newline run. -/
def leadNL (l : Str) : Nat := (l.takeWhile (· == '\n')).length

/-- Anchored code-block matches exist nowhere in `content`. -/
def noFenceMatch (content : Str) : Bool :=
  content.tails.all (fun t => (matchFenceAt t).isNone)

/-! ## Lemmas: fence counting through `cleanResponse` -/

theorem ttc_cons_ne {c : Char} (h : c ≠ '`') (rest : Str) :
    tripleTickCount (c :: rest) = tripleTickCount rest := by
  simp [tripleTickCount, h]

theorem ttc_cons (c : Char) (rest : Str) :
    tripleTickCount (c :: rest) =
      (if c = '`' ∧ rest.take 2 = ['`', '`'] then 1 else 0) + tripleTickCount rest := rfl

/-- The fence count returned by the rune loop is the overlapping
triple-backtick count of the input. -/
theorem cleanPass_snd (l : Str) : (cleanPass l).2 = tripleTickCount l := by
  induction l with
  | nil => rfl
  | cons c rest ih =>
    by_cases hc : c = '\r'
    · subst hc
      rw [ttc_cons_ne (by decide)]
      by_cases hr : rest.take 1 = ['\n'] <;> simp [cleanPass, hr, ih]
    · by_cases hb : c = '`' ∧ rest.take 2 = ['`', '`']
      · simp [cleanPass, hc, hb, ttc_cons, ih, Nat.add_comm]
      · simp [cleanPass, hc, hb, ttc_cons, ih]

theorem cleanPass_take_one (l : Str) :
    ((cleanPass l).1.take 1 = ['`']) ↔ (l.take 1 = ['`']) := by
  match l with
  | [] => simp [cleanPass]
  | c :: rest =>
    by_cases hc : c = '\r'
    · subst hc
      by_cases hr : rest.take 1 = ['\n']
      · match rest, hr with
        | d :: rest2, hr =>
          have hd : d = '\n' := by simpa using hr
          subst hd
          simp [cleanPass, hr]
      · simp [cleanPass, hr]
    · by_cases hb : c = '`' ∧ rest.take 2 = ['`', '`'] <;>
        simp [cleanPass, hc, hb]

theorem cleanPass_take_two (l : Str) :
    ((cleanPass l).1.take 2 = ['`', '`']) ↔ (l.take 2 = ['`', '`']) := by
  match l with
  | [] => simp [cleanPass]
  | c :: rest =>
    by_cases hc : c = '\r'
    · subst hc
      constructor
      · intro h
        exfalso
        by_cases hr : rest.take 1 = ['\n']
        · match rest, hr with
          | d :: rest2, hr =>
            have hd : d = '\n' := by simpa using hr
            subst hd
            simp [cleanPass, hr] at h
        · simp [cleanPass, hr] at h
      · intro h
        exfalso
        simp at h
    · have hhead : ∀ p2 : Nat → Nat, True := fun _ => trivial
      have hout : (cleanPass (c :: rest)).1 = c :: (cleanPass rest).1 := by
        by_cases hb : c = '`' ∧ rest.take 2 = ['`', '`'] <;>
          simp [cleanPass, hc, hb]
      rw [hout, List.take_succ_cons, List.take_succ_cons]
      constructor
      · rintro h
        have hc' : c = '`' := by
          have := congrArg (fun t => t.take 1) h
          simpa using (List.cons.injEq _ _ _ _ ▸ h).1
        have h1 : (cleanPass rest).1.take 1 = ['`'] := by
          have := (List.cons.injEq _ _ _ _ ▸ h).2
          simpa using this
        have := (cleanPass_take_one rest).mp h1
        simp [hc', this]
      · rintro h
        have hc' : c = '`' := (List.cons.injEq _ _ _ _ ▸ h).1
        have h1 : rest.take 1 = ['`'] := by
          have := (List.cons.injEq _ _ _ _ ▸ h).2
          simpa using this
        have := (cleanPass_take_one rest).mpr h1
        simp [hc', this]

/-- The normalization pass preserves the overlapping fence count:
it only deletes `\r` before `\n` and rewrites lone `\r` to `\n`. -/
theorem cleanPass_ttc (l : Str) :
    tripleTickCount (cleanPass l).1 = tripleTickCount l := by
  induction l with
  | nil => rfl
  | cons c rest ih =>
    by_cases hc : c = '\r'
    · subst hc
      rw [ttc_cons_ne (by decide)]
      by_cases hr : rest.take 1 = ['\n']
      · simpa [cleanPass, hr] using ih
      · have hout : (cleanPass ('\r' :: rest)).1 = '\n' :: (cleanPass rest).1 := by
          simp [cleanPass, hr]
        rw [hout, ttc_cons_ne (by decide)]
        exact ih
    · have hout : (cleanPass (c :: rest)).1 = c :: (cleanPass rest).1 := by
        by_cases hb : c = '`' ∧ rest.take 2 = ['`', '`'] <;>
          simp [cleanPass, hc, hb]
      rw [hout, ttc_cons, ttc_cons, ih]
      congr 1
      by_cases h2 : rest.take 2 = ['`', '`']
      · simp [h2, (cleanPass_take_two rest).mpr h2]
      · have : ¬ (cleanPass rest).1.take 2 = ['`', '`'] :=
          fun hh => h2 ((cleanPass_take_two rest).mp hh)
        simp [h2, this]

theorem ttc_nontick {ws : Str} (h : ∀ c ∈ ws, c ≠ '`') : tripleTickCount ws = 0 := by
  induction ws with
  | nil => rfl
  | cons c rest ih =>
    rw [ttc_cons_ne (h c (List.mem_cons_self c rest)) rest]
    exact ih fun d hd => h d (List.mem_cons_of_mem _ hd)

/-- Appending backtick-free text does not change the fence count. -/
theorem ttc_append_nontick (l : Str) {ws : Str} (h : ∀ c ∈ ws, c ≠ '`') :
    tripleTickCount (l ++ ws) = tripleTickCount l := by
  induction l with
  | nil => simpa using ttc_nontick h
  | cons c l' ih =>
    rw [List.cons_append, ttc_cons, ttc_cons, ih]
    congr 1
    match l' with
    | [] =>
      match ws, h with
      | [], _ => simp
      | w :: ws', h =>
        have hw : w ≠ '`' := h w (List.mem_cons_self w ws')
        simp [List.take_succ_cons, hw]
    | [d] =>
      match ws, h with
      | [], _ => simp
      | w :: ws', h =>
        have hw : w ≠ '`' := h w (List.mem_cons_self w ws')
        simp [List.take_succ_cons, hw]
    | d1 :: d2 :: t => simp [List.take_succ_cons]

theorem ttc_append_close (l : Str) :
    tripleTickCount (l ++ str "\n```") = tripleTickCount l + 1 := by
  induction l with
  | nil => decide
  | cons c l' ih =>
    rw [List.cons_append, ttc_cons, ttc_cons, ih]
    have hcond : (c = '`' ∧ (l' ++ str "\n```").take 2 = ['`', '`']) ↔
        (c = '`' ∧ l'.take 2 = ['`', '`']) := by
      match l' with
      | [] => simp [str]
      | [d] => simp [str, List.take_succ_cons]
      | d1 :: d2 :: t => simp [List.take_succ_cons]
    rw [if_congr hcond rfl rfl]
    omega

theorem ttc_dropWhile_space (l : Str) :
    tripleTickCount (l.dropWhile isGoSpace) = tripleTickCount l := by
  induction l with
  | nil => rfl
  | cons c rest ih =>
    by_cases hs : isGoSpace c
    · have hc : c ≠ '`' := by
        intro h
        subst h
        exact absurd hs (by decide)
      rw [List.dropWhile_cons_of_pos hs, ih, ttc_cons_ne hc]
    · rw [List.dropWhile_cons_of_neg hs]

theorem trimRight_decomp (l : Str) :
    ∃ ws, l = trimRight l ++ ws ∧ ∀ c ∈ ws, isGoSpace c = true := by
  refine ⟨(l.reverse.takeWhile isGoSpace).reverse, ?_, ?_⟩
  · have hsplit := List.takeWhile_append_dropWhile (p := isGoSpace) (l := l.reverse)
    have h2 := congrArg List.reverse hsplit
    rw [List.reverse_append, List.reverse_reverse] at h2
    exact h2.symm
  · intro c hc
    rw [List.mem_reverse] at hc
    exact List.mem_takeWhile_imp hc

theorem ttc_trimSpace (l : Str) :
    tripleTickCount (trimSpace l) = tripleTickCount l := by
  have hmid := ttc_dropWhile_space l
  obtain ⟨ws, hdec, hws⟩ := trimRight_decomp (l.dropWhile isGoSpace)
  have hws' : ∀ c ∈ ws, c ≠ '`' := by
    intro c hc h
    subst h
    exact absurd (hws _ hc) (by decide)
  calc tripleTickCount (trimSpace l)
      = tripleTickCount (trimRight (l.dropWhile isGoSpace) ++ ws) :=
        (ttc_append_nontick _ hws').symm
    _ = tripleTickCount (l.dropWhile isGoSpace) := by rw [← hdec]
    _ = tripleTickCount l := hmid

theorem limitAux_take_one (l : Str) :
    (limitNewlinesAux l 0).take 1 = l.take 1 := by
  match l with
  | [] => rfl
  | c :: rest =>
    by_cases hn : c = '\n'
    · subst hn
      simp [limitNewlinesAux]
    · simp [limitNewlinesAux, hn]

theorem limitAux_take_two (l : Str) :
    ((limitNewlinesAux l 0).take 2 = ['`', '`']) ↔ (l.take 2 = ['`', '`']) := by
  match l with
  | [] => simp [limitNewlinesAux]
  | c :: rest =>
    by_cases hn : c = '\n'
    · subst hn
      simp [limitNewlinesAux, List.take_succ_cons]
    · have hout : limitNewlinesAux (c :: rest) 0 = c :: limitNewlinesAux rest 0 := by
        simp [limitNewlinesAux, hn]
      rw [hout, List.take_succ_cons, List.take_succ_cons, limitAux_take_one]

/-- Dropping newlines beyond a run of three never merges backticks, so
the overlapping fence count is unchanged. -/
theorem limitAux_ttc (l : Str) : ∀ k,
    tripleTickCount (limitNewlinesAux l k) = tripleTickCount l := by
  induction l with
  | nil => intro k; rfl
  | cons c rest ih =>
    intro k
    by_cases hn : c = '\n'
    · subst hn
      by_cases h3 : k + 1 ≤ 3
      · have hout : limitNewlinesAux ('\n' :: rest) k = '\n' :: limitNewlinesAux rest (k + 1) := by
          simp [limitNewlinesAux, h3]
        rw [hout, ttc_cons_ne (by decide), ih, ttc_cons_ne (by decide)]
      · have hout : limitNewlinesAux ('\n' :: rest) k = limitNewlinesAux rest (k + 1) := by
          simp [limitNewlinesAux, h3]
        rw [hout, ih, ttc_cons_ne (by decide)]
    · have hout : limitNewlinesAux (c :: rest) k = c :: limitNewlinesAux rest 0 := by
        simp [limitNewlinesAux, hn]
      rw [hout, ttc_cons, ttc_cons, ih 0]
      congr 1
      by_cases h2 : rest.take 2 = ['`', '`']
      · simp [h2, (limitAux_take_two rest).mpr h2]
      · have : ¬ (limitNewlinesAux rest 0).take 2 = ['`', '`'] :=
          fun hh => h2 ((limitAux_take_two rest).mp hh)
        simp [h2, this]

/-- The overlapping fence count of the final `cleanResponse` output is
always even: the rune loop's count equals the overlapping count of the
input, normalization/trimming preserve it, one fence is appended exactly
when it is odd, and `limitNewlines` preserves it. -/
theorem cleanResponse_ttc_even (text : Str) :
    tripleTickCount (cleanResponse text) % 2 = 0 := by
  by_cases h0 : text = []
  · simp [cleanResponse, h0, tripleTickCount]
  · have hbal : tripleTickCount (balancedOf text) % 2 = 0 := by
      unfold balancedOf
      rw [if_neg h0]
      have hcount : (cleanPass text).2 = tripleTickCount text := cleanPass_snd text
      have hclean : tripleTickCount (trimSpace (cleanPass text).1) = tripleTickCount text := by
        rw [ttc_trimSpace, cleanPass_ttc]
      by_cases hodd : (cleanPass text).2 % 2 = 1
      · rw [if_pos hodd, ttc_append_close, hclean]
        rw [hcount] at hodd
        omega
      · rw [if_neg hodd, hclean]
        rw [hcount] at hodd
        omega
    unfold cleanResponse
    rw [if_neg h0]
    unfold limitNewlines
    rw [limitAux_ttc _ 0]
    exact hbal

/-! ## Lemmas: `limitNewlines` caps newline runs, keeps other characters -/

theorem startsWith_nnn {l : Str} (h : startsWith (str "\n\n\n") l = true) :
    3 ≤ leadNL l := by
  match l with
  | [] => simp [str, startsWith] at h
  | [c1] => simp [str, startsWith, Bool.and_eq_true] at h
  | [c1, c2] => simp [str, startsWith, Bool.and_eq_true] at h
  | c1 :: c2 :: c3 :: t =>
    simp only [str, startsWith, Bool.and_eq_true, decide_eq_true_eq] at h
    obtain ⟨h1, h2, h3, _⟩ := h
    subst h1
    subst h2
    subst h3
    simp [leadNL, List.takeWhile_cons]

theorem limitAux_no4 (l : Str) : ∀ k,
    leadNL (limitNewlinesAux l k) + min k 3 ≤ 3 ∧
    hasSub (str "\n\n\n\n") (limitNewlinesAux l k) = false := by
  induction l with
  | nil =>
    intro k
    constructor
    · show leadNL [] + min k 3 ≤ 3
      simp [leadNL]
    · show hasSub (str "\n\n\n\n") [] = false
      decide
  | cons c rest ih =>
    intro k
    by_cases hn : c = '\n'
    · subst hn
      by_cases h3 : k + 1 ≤ 3
      · have hout : limitNewlinesAux ('\n' :: rest) k = '\n' :: limitNewlinesAux rest (k + 1) := by
          simp [limitNewlinesAux, h3]
        obtain ⟨ihl, ihs⟩ := ih (k + 1)
        rw [Nat.min_eq_left h3] at ihl
        constructor
        · rw [hout]
          have : leadNL ('\n' :: limitNewlinesAux rest (k + 1)) =
              1 + leadNL (limitNewlinesAux rest (k + 1)) := by
            simp [leadNL, List.takeWhile_cons]
            omega
          rw [this]
          omega
        · rw [hout]
          simp only [hasSub, Bool.or_eq_false_iff]
          refine ⟨?_, ihs⟩
          by_cases hsw : startsWith (str "\n\n\n") (limitNewlinesAux rest (k + 1)) = true
          · have := startsWith_nnn hsw
            omega
          · simp only [str, startsWith, List.cons.injEq, Bool.and_eq_true,
              decide_eq_true_eq] at hsw ⊢
            simp only [Bool.and_eq_false_iff]
            right
            simpa [str, startsWith] using hsw
      · have hout : limitNewlinesAux ('\n' :: rest) k = limitNewlinesAux rest (k + 1) := by
          simp [limitNewlinesAux, h3]
        obtain ⟨ihl, ihs⟩ := ih (k + 1)
        have hmin : min (k + 1) 3 = 3 := by omega
        rw [hmin] at ihl
        rw [hout]
        exact ⟨by omega, ihs⟩
    · have hout : limitNewlinesAux (c :: rest) k = c :: limitNewlinesAux rest 0 := by
        simp [limitNewlinesAux, hn]
      obtain ⟨ihl, ihs⟩ := ih 0
      rw [hout]
      constructor
      · have : leadNL (c :: limitNewlinesAux rest 0) = 0 := by
          simp [leadNL, List.takeWhile_cons, hn]
        rw [this]
        omega
      · simp only [hasSub, Bool.or_eq_false_iff]
        refine ⟨?_, ihs⟩
        simp only [str, startsWith, Bool.and_eq_false_iff]
        left
        simpa using fun h => hn h.symm

theorem limitAux_filter (l : Str) : ∀ k,
    (limitNewlinesAux l k).filter (· != '\n') = l.filter (· != '\n') := by
  induction l with
  | nil => intro k; rfl
  | cons c rest ih =>
    intro k
    by_cases hn : c = '\n'
    · subst hn
      by_cases h3 : k + 1 ≤ 3 <;>
        simp [limitNewlinesAux, h3, List.filter_cons, ih]
    · simp [limitNewlinesAux, hn, List.filter_cons, ih 0]

/-! ## Lemmas: ProcessStream error behaviour -/

/-- Without a read failure the scan loop always returns `ok`. -/
theorem processStreamAux_ok (lines : List Str) : ∀ acc calls,
    ∃ s, (processStreamAux acc calls lines none).2 = .ok s := by
  induction lines with
  | nil => intro acc calls; exact ⟨cleanResponse acc, rfl⟩
  | cons line rest ih =>
    intro acc calls
    by_cases hg : line.length < 6 ∨ line.take 6 ≠ dataPrefix
    · simpa [processStreamAux, hg] using ih acc calls
    · by_cases hd : line.drop 6 = doneSentinel
      · exact ⟨cleanResponse acc, by simp [processStreamAux, hg, hd]⟩
      · match hp : parseChunk (line.drop 6) with
        | none => simpa [processStreamAux, hg, hd, hp] using ih acc calls
        | some chunk =>
          by_cases hdn : chunk.done
          · refine ⟨cleanResponse (if chunk.type = str "chat:completion" ∧
              chunk.deltaContent ≠ [] then acc ++ chunk.deltaContent else acc), ?_⟩
            simp [processStreamAux, hg, hd, hp, hdn]
          · simpa [processStreamAux, hg, hd, hp, hdn] using ih _ _

/-- When the loop reaches the end of the delivered lines, a pending read
failure is returned as the error, and the callback trace is exactly the
trace of the failure-free run. -/
theorem processStreamAux_readErr (lines : List Str) : ∀ acc calls msg,
    noEarlyStop lines = true →
    processStreamAux acc calls lines (some msg) =
      ((processStreamAux acc calls lines none).1,
        .error (str "failed to read stream: " ++ msg)) := by
  induction lines with
  | nil => intro acc calls msg _; rfl
  | cons line rest ih =>
    intro acc calls msg hne
    by_cases hg : line.length < 6 ∨ line.take 6 ≠ dataPrefix
    · rw [show noEarlyStop (line :: rest) = noEarlyStop rest by
        simp [noEarlyStop, hg]] at hne
      simpa [processStreamAux, hg] using ih acc calls msg hne
    · by_cases hd : line.drop 6 = doneSentinel
      · exfalso
        rw [show noEarlyStop (line :: rest) = false by
          simp [noEarlyStop, hg, hd]] at hne
        exact Bool.false_ne_true hne
      · match hp : parseChunk (line.drop 6) with
        | none =>
          rw [show noEarlyStop (line :: rest) = noEarlyStop rest by
            simp [noEarlyStop, hg, hd, hp]] at hne
          simpa [processStreamAux, hg, hd, hp] using ih acc calls msg hne
        | some chunk =>
          by_cases hdn : chunk.done
          · exfalso
            rw [show noEarlyStop (line :: rest) = false by
              simp [noEarlyStop, hg, hd, hp, hdn]] at hne
            exact Bool.false_ne_true hne
          · rw [show noEarlyStop (line :: rest) = noEarlyStop rest by
              simp [noEarlyStop, hg, hd, hp, hdn]] at hne
            simpa [processStreamAux, hg, hd, hp, hdn] using ih _ _ msg hne

/-! ## Claim theorems: stream processor -/

/-- C2 counterexample: for the accumulated text `"````"` (four
backticks) the finalized output is unchanged and contains an odd number
of triple-backtick fence markers (1, counting markers the way
`strings.Count` does), because the rune loop counts the four backticks
as two overlapping triples and therefore appends no closing fence. -/
theorem C2_counterexample :
    cleanResponse (str "````") = str "````" ∧
    fenceMarkerCount (str "````") = 1 ∧
    fenceMarkerCount (cleanResponse (str "````")) % 2 = 1 := by decide

/-- C2 (amended): for every accumulated text, the finalized output of
`cleanResponse` contains an even number of triple-backtick fence
markers when markers are counted the way the code counts them — as
(possibly overlapping) positions where three consecutive backticks
begin; if that count of the raw text is odd, exactly one closing fence
is appended. -/
theorem C2_fence_parity (text : Str) :
    tripleTickCount (cleanResponse text) % 2 = 0 :=
  cleanResponse_ttc_even text

/-- C3: when the byte source fails mid-stream, `ProcessStream`
propagates the failure as an error, and the deltas received so far have
all been delivered to the caller through the callback — the callback
trace is exactly that of the failure-free run (the accumulated partial
text reached the caller delta by delta rather than being silently
discarded). -/
theorem C3_read_error_partial (lines : List Str) (msg : Str)
    (h : noEarlyStop lines = true) :
    processStream lines (some msg) =
      ((processStream lines none).1,
        .error (str "failed to read stream: " ++ msg)) :=
  processStreamAux_readErr lines [] [] msg h

/-- C3 witness: a stream delivering one `"Hi"` delta and then failing
with `"boom"`: the error is propagated and the callback received
`"Hi"`. -/
theorem C3_read_error_partial_witness :
    noEarlyStop [str "data: \x7b\"type\":\"chat:completion\",\"data\":\x7b\"delta_content\":\"Hi\"\x7d\x7d"] = true ∧
    (processStream [str "data: \x7b\"type\":\"chat:completion\",\"data\":\x7b\"delta_content\":\"Hi\"\x7d\x7d"] none).1 = [str "Hi"] ∧
    processStream [str "data: \x7b\"type\":\"chat:completion\",\"data\":\x7b\"delta_content\":\"Hi\"\x7d\x7d"] (some (str "boom")) =
      ((processStream [str "data: \x7b\"type\":\"chat:completion\",\"data\":\x7b\"delta_content\":\"Hi\"\x7d\x7d"] none).1,
        .error (str "failed to read stream: boom")) :=
  ⟨by decide, by decide,
    C3_read_error_partial
      [str "data: \x7b\"type\":\"chat:completion\",\"data\":\x7b\"delta_content\":\"Hi\"\x7d\x7d"]
      (str "boom") (by decide)⟩

/-- C7: line content alone never fails the decode loop — (a) without a
read failure the loop always returns `ok` (end of stream without an
explicit Done is an implicit Done), (b) a line without the `"data: "`
prefix is discarded with no other effect, (c) a data line whose payload
is not the sentinel and fails to parse is silently skipped. -/
theorem C7_line_content_never_fails :
    (∀ lines acc calls, ∃ s, (processStreamAux acc calls lines none).2 = .ok s) ∧
    (∀ acc calls line rest e, (line.length < 6 ∨ line.take 6 ≠ dataPrefix) →
      processStreamAux acc calls (line :: rest) e = processStreamAux acc calls rest e) ∧
    (∀ acc calls payload rest e, payload ≠ doneSentinel → parseChunk payload = none →
      processStreamAux acc calls ((dataPrefix ++ payload) :: rest) e =
        processStreamAux acc calls rest e) := by
  refine ⟨fun lines acc calls => processStreamAux_ok lines acc calls, ?_, ?_⟩
  · intro acc calls line rest e h
    simp [processStreamAux, h]
  · intro acc calls payload rest e hpay hparse
    have hlen6 : dataPrefix.length = 6 := by decide
    have htake : (dataPrefix ++ payload).take 6 = dataPrefix := by
      rw [← hlen6, List.take_left]
    have hdrop : (dataPrefix ++ payload).drop 6 = payload := by
      rw [← hlen6, List.drop_left]
    have hguard : ¬ ((dataPrefix ++ payload).length < 6 ∨
        (dataPrefix ++ payload).take 6 ≠ dataPrefix) := by
      push_neg
      refine ⟨?_, htake⟩
      rw [List.length_append, hlen6]
      omega
    simp [processStreamAux, hguard, hdrop, hpay, hparse]

/-- C7 witness: a prefix-less line and an unparsable `"{"` payload are
both skipped, and a stream of one junk line still ends in `ok`. -/
theorem C7_line_content_never_fails_witness :
    (∃ s, (processStreamAux [] [] [str "hello"] none).2 = .ok s) ∧
    processStreamAux [] [] [str "hello"] none = processStreamAux [] [] [] none ∧
    processStreamAux [] [] [dataPrefix ++ str "\x7b"] none = processStreamAux [] [] [] none :=
  ⟨C7_line_content_never_fails.1 [str "hello"] [] [],
    C7_line_content_never_fails.2.1 [] [] (str "hello") [] none (by decide),
    C7_line_content_never_fails.2.2 [] [] (str "\x7b") [] none (by decide) (by decide)⟩

/-- C9: the finalized output of `cleanResponse` never contains four
consecutive newlines, and its non-newline characters are exactly those
of the normalized, fence-balanced intermediate text, in order. -/
theorem C9_newline_cap (text : Str) :
    hasSub (str "\n\n\n\n") (cleanResponse text) = false ∧
    (cleanResponse text).filter (· != '\n') = (balancedOf text).filter (· != '\n') := by
  by_cases h0 : text = []
  · subst h0
    exact ⟨by decide, rfl⟩
  · unfold cleanResponse limitNewlines
    rw [if_neg h0]
    exact ⟨(limitAux_no4 _ 0).2, limitAux_filter _ 0⟩

/-- C10: the decoder's prefix check is total — a line shorter than 6
characters is skipped by the explicit length guard, and whenever the
6-character prefix matches `"data: "` the line provably has at least 6
characters and is exactly the prefix followed by the extracted payload,
so taking the remainder after the prefix is always in bounds. -/
theorem C10_prefix_guard_total (line : Str) :
    (∀ acc calls rest e, line.length < 6 →
      processStreamAux acc calls (line :: rest) e = processStreamAux acc calls rest e) ∧
    (line.take 6 = dataPrefix → 6 ≤ line.length ∧ dataPrefix ++ line.drop 6 = line) := by
  constructor
  · intro acc calls rest e h
    simp [processStreamAux, h]
  · intro h
    have hlen : 6 ≤ line.length := by
      have hl := congrArg List.length h
      rw [List.length_take] at hl
      have : dataPrefix.length = 6 := by decide
      omega
    exact ⟨hlen, by rw [← h]; exact List.take_append_drop 6 line⟩

/-- C10 witness: the 4-character line `"data"` is skipped, and for
`"data: x"` the payload extraction is in bounds and exact. -/
theorem C10_prefix_guard_total_witness :
    processStreamAux [] [] [str "data"] none = processStreamAux [] [] [] none ∧
    (6 ≤ (str "data: x").length ∧
      dataPrefix ++ (str "data: x").drop 6 = str "data: x") :=
  ⟨(C10_prefix_guard_total (str "data")).1 [] [] [] none (by decide),
    (C10_prefix_guard_total (str "data: x")).2 (by decide)⟩

/-! ## Claim theorems: decoder events, renderer, progressive display -/

/-- C6: decoding the two-line stream
`data: {"type":"chat:completion","data":{"delta_content":"Hi"}}`,
`data: [DONE]` yields exactly the events `[ContentChunk "Hi", Done]`:
the callback fires once with `"Hi"` and the sentinel terminates the
decode with accumulated result `"Hi"`. -/
theorem C6_decode_two_lines :
    processStream
      [str "data: \x7b\"type\":\"chat:completion\",\"data\":\x7b\"delta_content\":\"Hi\"\x7d\x7d",
       str "data: [DONE]"] none = ([str "Hi"], .ok (str "Hi")) ∧
    eventsOf (processStream
      [str "data: \x7b\"type\":\"chat:completion\",\"data\":\x7b\"delta_content\":\"Hi\"\x7d\x7d",
       str "data: [DONE]"] none) = [.contentChunk (str "Hi"), .done] := by decide

set_option maxRecDepth 100000 in
/-- C1 counterexample: for `"```go\nx\n"` — whose fence-marker count
after closed-block extraction is odd (1) and where a newline already
follows the `go` tag line — `RenderMarkdown` returns the input
unchanged: the partial body is left as literal text and no bordered box
(no `┌`) is produced, contradicting the claimed partial-block
rendering. -/
theorem C1_counterexample :
    fenceMarkerCount (processCodeBlocks plainHighlight (str "```go\nx\n")) = 1 ∧
    RenderMarkdown plainHighlight (str "```go\nx\n") = str "```go\nx\n" ∧
    hasSub ['┌'] (RenderMarkdown plainHighlight (str "```go\nx\n")) = false := by
  decide

/-- C1 (amended): the renderer has no partial-block pass — whenever the
closed-block pattern matches nowhere in the input (in particular for
any unmatched trailing fence, with or without a newline after its
language-tag line), `processCodeBlocks` leaves the text unchanged, so
the fragment stays literal. -/
theorem C1_unmatched_fence_literal (hl : Str → Str → Str) (content : Str)
    (h : noFenceMatch content = true) :
    processCodeBlocks hl content = content := by
  have main : ∀ fuel s, noFenceMatch s = true → processCodeBlocksAux hl fuel s = s := by
    intro fuel
    induction fuel with
    | zero => intro s _; rfl
    | succ n ih =>
      intro s hs
      match s with
      | [] => rfl
      | c :: rest =>
        have hall := hs
        unfold noFenceMatch at hall
        rw [List.tails_cons, List.all_cons, Bool.and_eq_true] at hall
        obtain ⟨hhead, htail⟩ := hall
        have hm : matchFenceAt (c :: rest) = none := by
          simpa [Option.isNone_iff_eq_none] using hhead
        have htail' : noFenceMatch rest = true := by
          unfold noFenceMatch
          exact htail
        rw [processCodeBlocksAux, hm, ih rest htail']
  exact main content.length content h

/-- C1 amended witness: the unmatched trailing fence `"```go\nx\n"`. -/
theorem C1_unmatched_fence_literal_witness :
    noFenceMatch (str "```go\nx\n") = true ∧
    processCodeBlocks plainHighlight (str "```go\nx\n") = str "```go\nx\n" :=
  ⟨by decide,
    C1_unmatched_fence_literal plainHighlight (str "```go\nx\n") (by decide)⟩

set_option maxRecDepth 100000 in
/-- C4 counterexample: an ANSI bold sequence present in the highlighted
input of `formatCodeBlock` is NOT preserved in the emitted bytes — the
box output contains no `ESC[1m` even though the input does,
contradicting the claim that escapes are preserved while contributing
zero columns. -/
theorem C4_counterexample :
    hasSub (str "\x1b[1m") (str "\x1b[1mab\x1b[0m") = true ∧
    hasSub (str "\x1b[1m") (formatCodeBlock (str "\x1b[1mab\x1b[0m") []) = false := by
  decide

set_option maxRecDepth 100000 in
/-- C4 (amended): width arithmetic in `formatCodeBlock` is computed on
the ANSI-stripped text, and the stripped text is also what is emitted
(escape sequences are removed, not preserved); width is counted in
UTF-8 bytes, not display columns: the box for the highlighted input
equals the box for the plain text, and a wide character (`日`,
3 bytes, 2 columns) is padded as 3 cells wide
(40 − 3 = 37 trailing spaces inside the 44-wide box). -/
theorem C4_byte_width_stripped :
    formatCodeBlock (str "\x1b[1mab\x1b[0m") [] = formatCodeBlock (str "ab") [] ∧
    utf8Len (str "日") = 3 ∧
    formatCodeBlock (str "日") [] =
      (sprintCyanBold ('┌' :: (dashes 42 ++ ['┐'])) ++ ['\n']) ++
      (sprintCyanBold (str "│ ") ++ str "日" ++ spaces 37 ++
        sprintCyanBold (str " │") ++ ['\n']) ++
      (sprintCyanBold ('└' :: (dashes 42 ++ ['┘'])) ++ ['\n']) := by
  decide

set_option maxRecDepth 100000 in
/-- C5 counterexample: a code block whose body is the single space
`" "` does NOT render as empty output — `RenderMarkdown` produces a
non-empty bordered box (it contains `┌`), contradicting the claimed
empty-block special case. -/
theorem C5_counterexample :
    RenderMarkdown plainHighlight (str "```\n \n```") ≠ [] ∧
    hasSub ['┌'] (RenderMarkdown plainHighlight (str "```\n \n```")) = true := by
  decide

set_option maxRecDepth 100000 in
/-- C5 (amended): a whitespace-only code-block body is still rendered
as a bordered box; there is no empty-body special case — the rendering
of the all-whitespace block is exactly the bordered `formatCodeBlock`
output, which is non-empty. -/
theorem C5_whitespace_block_boxed :
    RenderMarkdown plainHighlight (str "```\n \n```") = formatCodeBlock (str " ") [] ∧
    formatCodeBlock (str " ") [] ≠ [] := by
  decide

/-- C8: after a repaint, the stored `lastLines` is the line count of
the frame just printed, and the cursor-up count issued by the next
repaint equals that previous frame's line count — independent of what
the new buffer renders to. -/
theorem C8_cursor_up_previous_frame (hl : Str → Str → Str)
    (st : PrinterState) (b1 b2 : Str) :
    ((printerRender hl st b1).2).lastLines = countNL (RenderMarkdown hl b1) ∧
    (0 < countNL (RenderMarkdown hl b1) →
      ((printerRender hl ((printerRender hl st b1).2) b2).1).cursorUp =
        some (countNL (RenderMarkdown hl b1))) := by
  refine ⟨rfl, fun h => ?_⟩
  simp [printerRender, h]

/-- C8 witness: a first repaint of `"a\nb"` (1 printed newline) makes
the second repaint of the shorter `"x"` issue cursor-up 1. -/
theorem C8_cursor_up_previous_frame_witness :
    0 < countNL (RenderMarkdown plainHighlight (str "a\nb")) ∧
    ((printerRender plainHighlight
        ((printerRender plainHighlight ⟨0⟩ (str "a\nb")).2) (str "x")).1).cursorUp =
      some (countNL (RenderMarkdown plainHighlight (str "a\nb"))) :=
  ⟨by decide,
    (C8_cursor_up_previous_frame plainHighlight ⟨0⟩ (str "a\nb") (str "x")).2 (by decide)⟩
